import Mathlib

/-!
# Verification of the BytePS staged-scheduler core

A shallow embedding of the tensor partitioning, declaration table, key
encoding and enqueue front-end of the BytePS communication runtime
(`src/byteps/common/operations.cc`, `src/byteps/common/global.cc`,
`src/byteps/common/common.h`), together with theorems settling the
specification claims about them.

Machine integers (`uint64_t` keys, `size_t` sizes) are modelled as `Nat`
with explicit `% 2^64` where overflow can matter; `int32_t` quantities
that may be negative are modelled as `Int`.
-/

namespace BytePS

/-- The C++ `enum OperationType` from `common.h`. -/
inductive OperationType where
  | UNKNOWN_OP
  | PUSH_PULL_OP
  | P2P_OP
  | ALLTOALL_OP
  | ALLGATHER_OP
deriving DecidableEq, Repr

/-- The numeric value of each `OperationType` enumerator in the C++ source. -/
def OperationType.tag : OperationType → Nat
  | .UNKNOWN_OP => 0
  | .PUSH_PULL_OP => 1
  | .P2P_OP => 2
  | .ALLTOALL_OP => 3
  | .ALLGATHER_OP => 4

/-- The C++ `enum StatusType` from `common.h`. -/
inductive StatusType where
  | OK
  | UNKNOWN_ERROR
  | PRECONDITION_ERROR
  | ABORTED
  | INVALID_ARGUMENT
  | IN_PROGRESS
  | DATA_LOSS
deriving DecidableEq, Repr

/-- The C++ `enum QueueType` from `common.h` (the stage catalog). -/
inductive QueueType where
  | COORDINATE_REDUCE
  | REDUCE
  | COPYD2H
  | PCIE_REDUCE
  | COORDINATE_PUSH
  | COMPRESS
  | PUSH
  | PULL
  | GDR_V1_PUSH_PULL
  | GDR_V2_PUSH_PULL
  | GDR_WAIT_PUSH_PULL
  | DECOMPRESS
  | COPYH2D
  | COORDINATE_BROADCAST
  | BROADCAST
  | SEND
  | RECV
  | P2P_GROUP_COPYH2D
  | P2P_PULL
  | P2P_PULL_RESPONSE
  | P2P_WAIT_ACK
  | CPU_COPY
  | CPU_REDUCE
  | CPU_BCAST
  | CPU_BCAST_FINISH
  | ALLGATHER
  | COORDINATE_ALLGATHER
  | ALLGATHER_PULL
  | ALLGATHER_PULL_RESP
  | ALLGATHER_BCAST
  | COORDINATE_ALLGATHER_BCAST
  | ALLGATHER_PULL_ACK
  | ALLGATHER_COPYD2H
  | ALLGATHER_COPYH2D
  | ALLGATHER_PULL_WORKER_LOCAL_ROOT
  | ALLGATHER_PULL_WORKER_LOCAL_ROOT_RESP
  | ALLGATHER_PULL_WORKER_LOCAL_ROOT_ACK
deriving DecidableEq, Repr

/-! ## Partitioning

`PartitionTensor` (`operations.cc`) splits a tensor of `size` bytes into
chunks by the loop

```
while (accumulated < size) {
  e->len = ((size - accumulated) > bound) ? bound : (size - accumulated);
  accumulated += e->len; ...
}
```

We model the loop on the remaining byte count.  The fuel argument equals the
initial size; since every iteration with `0 < bound` consumes at least one
byte this never runs out.  (With `bound = 0` the C++ loop would not
terminate, so all theorems assume `0 < bound`, which `GetPartitionBound`
guarantees: the default 4096000 is rounded *up* to a positive multiple of
`local_size * pagesize`.)
-/

/-- One step per loop iteration of `PartitionTensor`: emit
`min bound remaining` and recurse on the rest. -/
def partitionLensAux : Nat → Nat → Nat → List Nat
  | 0, _, _ => []
  | fuel + 1, size, bound =>
    if size = 0 then []
    else
      let len := if size > bound then bound else size
      len :: partitionLensAux fuel (size - len) bound

/-- The partition lengths produced by `PartitionTensor` for a tensor of
`size` bytes under partition bound `bound`. -/
def partitionLens (size bound : Nat) : List Nat :=
  partitionLensAux size size bound

lemma partitionLensAux_congr (bound : Nat) (hb : 0 < bound) :
    ∀ size fuel₁ fuel₂, size ≤ fuel₁ → size ≤ fuel₂ →
      partitionLensAux fuel₁ size bound = partitionLensAux fuel₂ size bound := by
  intro size
  induction size using Nat.strong_induction_on with
  | _ size ih =>
    intro fuel₁ fuel₂ h₁ h₂
    match size, fuel₁, fuel₂ with
    | 0, 0, 0 => rfl
    | 0, 0, f₂ + 1 => simp [partitionLensAux]
    | 0, f₁ + 1, 0 => simp [partitionLensAux]
    | 0, f₁ + 1, f₂ + 1 => simp [partitionLensAux]
    | s + 1, f₁ + 1, f₂ + 1 =>
      simp only [partitionLensAux, if_neg (Nat.succ_ne_zero s)]
      have hlen : (if s + 1 > bound then bound else s + 1) ≤ s + 1 ∧
          0 < (if s + 1 > bound then bound else s + 1) := by
        split <;> omega
      have hrec : s + 1 - (if s + 1 > bound then bound else s + 1) < s + 1 := by
        omega
      have := ih (s + 1 - (if s + 1 > bound then bound else s + 1)) hrec f₁ f₂
        (by omega) (by omega)
      rw [this]

lemma partitionLens_zero (bound : Nat) : partitionLens 0 bound = [] := rfl

lemma partitionLens_pos (size bound : Nat) (hb : 0 < bound) (hs : 0 < size) :
    partitionLens size bound =
      (if size > bound then bound else size) ::
        partitionLens (size - (if size > bound then bound else size)) bound := by
  obtain ⟨s, rfl⟩ : ∃ s, size = s + 1 := ⟨size - 1, by omega⟩
  show partitionLensAux (s + 1) (s + 1) bound = _
  simp only [partitionLensAux, if_neg (Nat.succ_ne_zero s)]
  congr 1
  exact partitionLensAux_congr bound hb _ s _ (by split <;> omega)
    (by split <;> omega)

/-- Closed form: all partitions are of length `bound` except the last, which
holds the remainder. -/
lemma partitionLens_eq_replicate (size bound : Nat) (hb : 0 < bound) (hs : 0 < size) :
    partitionLens size bound =
      List.replicate ((size + bound - 1) / bound - 1) bound ++
        [size - ((size + bound - 1) / bound - 1) * bound] := by
  induction size using Nat.strong_induction_on with
  | _ size ih =>
    rw [partitionLens_pos size bound hb hs]
    by_cases hgt : size > bound
    · have hrem : 0 < size - bound := by omega
      have hcount : (size + bound - 1) / bound = (size - bound + bound - 1) / bound + 1 := by
        have h1 : size + bound - 1 = (size - bound + bound - 1) + bound := by omega
        rw [h1, Nat.add_div_right _ hb]
      rw [if_pos hgt, ih (size - bound) (by omega) hrem]
      have hcount1 : 1 ≤ (size - bound + bound - 1) / bound := by
        have : bound ≤ size - bound + bound - 1 := by omega
        exact Nat.one_le_div_iff hb |>.mpr this
      obtain ⟨c, hc⟩ : ∃ c, (size - bound + bound - 1) / bound = c + 1 :=
        ⟨(size - bound + bound - 1) / bound - 1, by omega⟩
      rw [hcount, hc]
      simp only [Nat.add_sub_cancel, List.replicate_succ, List.cons_append,
        List.cons.injEq, true_and]
      congr 2
      have hmul : (c + 1) * bound = bound + c * bound := by ring
      omega
    · -- size ≤ bound: a single short partition
      rw [if_neg hgt]
      have hcount : (size + bound - 1) / bound = 1 := by
        have hlo : bound ≤ size + bound - 1 := by omega
        have h1 : 1 ≤ (size + bound - 1) / bound := Nat.one_le_div_iff hb |>.mpr hlo
        have h2 : (size + bound - 1) / bound < 2 := by
          rw [Nat.div_lt_iff_lt_mul hb]; omega
        omega
      rw [hcount]
      simp [partitionLens_zero]

lemma ceil_pred_mul_le (size bound : Nat) (hb : 0 < bound) (hs : 0 < size) :
    ((size + bound - 1) / bound - 1) * bound ≤ size - 1 := by
  have hc : (size + bound - 1) / bound = (size - 1) / bound + 1 := by
    have h1 : size + bound - 1 = (size - 1) + bound := by omega
    rw [h1, Nat.add_div_right _ hb]
  rw [hc]
  simp only [Nat.add_sub_cancel]
  exact Nat.div_mul_le_self _ _

/-- C1. For every push-pull submission of a tensor with byte size
`N > 0` under partition bound `B`, the `PartitionTensor` loop produces
exactly `⌈N/B⌉` partitions; every partition except the last has length
exactly `B`; the last has length `N - (⌈N/B⌉ - 1) * B`; and the partition
lengths sum to `N`. -/
theorem partition_tensor_spec (N B : Nat) (hN : 0 < N) (hB : 0 < B) :
    (partitionLens N B).length = (N + B - 1) / B ∧
    (∀ x ∈ (partitionLens N B).dropLast, x = B) ∧
    (partitionLens N B).getLast? = some (N - ((N + B - 1) / B - 1) * B) ∧
    (partitionLens N B).sum = N := by
  have hrep := partitionLens_eq_replicate N B hB hN
  have hle : ((N + B - 1) / B - 1) * B ≤ N - 1 := ceil_pred_mul_le N B hB hN
  refine ⟨?_, ?_, ?_, ?_⟩
  · rw [hrep]
    simp only [List.length_append, List.length_replicate, List.length_cons,
      List.length_nil]
    have h1 : 1 ≤ (N + B - 1) / B := Nat.one_le_div_iff hB |>.mpr (by omega)
    omega
  · rw [hrep]
    intro x hx
    rw [List.dropLast_append_of_ne_nil _ (by simp)] at hx
    simp only [List.dropLast_single, List.append_nil] at hx
    exact List.eq_of_mem_replicate hx
  · rw [hrep]
    rw [List.getLast?_append_of_ne_nil _ (by simp)]
    rfl
  · rw [hrep]
    simp only [List.sum_append, List.sum_replicate, List.sum_cons, List.sum_nil,
      smul_eq_mul]
    omega

/-- Witness for `partition_tensor_spec` at `N = 10`, `B = 4`:
partitions `[4, 4, 2]`. -/
theorem partition_tensor_spec_witness :
    (partitionLens 10 4).length = (10 + 4 - 1) / 4 ∧
    (∀ x ∈ (partitionLens 10 4).dropLast, x = 4) ∧
    (partitionLens 10 4).getLast? = some (10 - ((10 + 4 - 1) / 4 - 1) * 4) ∧
    (partitionLens 10 4).sum = 10 :=
  partition_tensor_spec 10 4 (by decide) (by decide)

/-! ## Routing-key generation: `InitTensor` and `InitTensorP2P`

`InitTensor` (`operations.cc`) builds the context `key_list` by

```
ps::Key start_key = context.declared_key << 16;
start_key += (uint32_t) PUSH_PULL_OP << 10;
while (accumulated < size) {
  context.key_list.push_back(start_key++);
  accumulated += ((size - accumulated) > bound) ? bound : (size - accumulated);
}
```

and `InitTensorP2P` does the same starting from
`((uint64_t) sender << 32) + (declared_key << 16) + (P2P_OP << 10)`.
`ps::Key` is `uint64_t`, modelled as `Nat` with `% 2^64` at every store;
the value pushed on iteration `i` is `(start + i) % 2^64`.
-/

/-- The `InitTensor` / `InitTensorP2P` key loop: one key per partition,
starting from `key`, incrementing by one each iteration. -/
def initKeyListAux : Nat → Nat → Nat → Nat → List Nat
  | 0, _, _, _ => []
  | fuel + 1, size, bound, key =>
    if size = 0 then []
    else
      let len := if size > bound then bound else size
      (key % 2 ^ 64) :: initKeyListAux fuel (size - len) bound (key + 1)

/-- The `key_list` built by `InitTensor` for a push-pull tensor with declared
key `d`, byte size `size` and partition bound `bound`. -/
def initTensorKeyList (d size bound : Nat) : List Nat :=
  initKeyListAux size size bound (d <<< 16 + OperationType.PUSH_PULL_OP.tag <<< 10)

/-- The `key_list` built by `InitTensorP2P` for a p2p tensor with sender rank
`sender`, declared key `d`, byte size `size` and partition bound `bound`. -/
def initTensorP2PKeyList (sender d size bound : Nat) : List Nat :=
  initKeyListAux size size bound
    (sender <<< 32 + d <<< 16 + OperationType.P2P_OP.tag <<< 10)

lemma initKeyListAux_congr (bound : Nat) (hb : 0 < bound) :
    ∀ size fuel₁ fuel₂ key, size ≤ fuel₁ → size ≤ fuel₂ →
      initKeyListAux fuel₁ size bound key = initKeyListAux fuel₂ size bound key := by
  intro size
  induction size using Nat.strong_induction_on with
  | _ size ih =>
    intro fuel₁ fuel₂ key h₁ h₂
    match size, fuel₁, fuel₂ with
    | 0, 0, 0 => rfl
    | 0, 0, f₂ + 1 => simp [initKeyListAux]
    | 0, f₁ + 1, 0 => simp [initKeyListAux]
    | 0, f₁ + 1, f₂ + 1 => simp [initKeyListAux]
    | s + 1, f₁ + 1, f₂ + 1 =>
      simp only [initKeyListAux, if_neg (Nat.succ_ne_zero s)]
      have hrec : s + 1 - (if s + 1 > bound then bound else s + 1) < s + 1 := by
        split <;> omega
      rw [ih (s + 1 - (if s + 1 > bound then bound else s + 1)) hrec f₁ f₂ (key + 1)
        (by split <;> omega) (by split <;> omega)]

/-- The key loop emits exactly the consecutive keys
`(key + i) % 2^64` for `i` below the partition count. -/
lemma initKeyList_eq_range_map (bound : Nat) (hb : 0 < bound) :
    ∀ size key, initKeyListAux size size bound key =
      (List.range (partitionLens size bound).length).map (fun i => (key + i) % 2 ^ 64) := by
  intro size
  induction size using Nat.strong_induction_on with
  | _ size ih =>
    intro key
    rcases Nat.eq_zero_or_pos size with hz | hs
    · subst hz; rfl
    · obtain ⟨s, rfl⟩ : ∃ s, size = s + 1 := ⟨size - 1, by omega⟩
      have hlen : (if s + 1 > bound then bound else s + 1) ≤ s + 1 ∧
          0 < (if s + 1 > bound then bound else s + 1) := by split <;> omega
      rw [partitionLens_pos _ bound hb hs]
      show initKeyListAux (s + 1) (s + 1) bound key = _
      simp only [initKeyListAux, if_neg (Nat.succ_ne_zero s)]
      rw [initKeyListAux_congr bound hb _ s _ (key + 1) (by omega) (le_refl _)]
      rw [ih (s + 1 - (if s + 1 > bound then bound else s + 1)) (by omega) (key + 1)]
      simp only [List.length_cons, List.range_succ_eq_map, List.map_cons,
        Nat.add_zero, List.map_map]
      congr 1
      apply List.map_congr_left
      intro i _
      simp only [Function.comp_apply]
      congr 1
      omega

lemma initTensorKeyList_getD (d N B i : Nat) (hB : 0 < B)
    (hi : i < (partitionLens N B).length)
    (hwrap : d <<< 16 + 1 <<< 10 + (partitionLens N B).length ≤ 2 ^ 64) :
    (initTensorKeyList d N B).getD i 0 = d <<< 16 + 1 <<< 10 + i := by
  unfold initTensorKeyList
  rw [initKeyList_eq_range_map B hB]
  rw [List.getD_eq_getElem?_getD, List.getElem?_map]
  rw [List.getElem?_range hi]
  show (d <<< 16 + OperationType.PUSH_PULL_OP.tag <<< 10 + i) % 2 ^ 64 = _
  have htag : OperationType.PUSH_PULL_OP.tag = 1 := rfl
  rw [htag]
  exact Nat.mod_eq_of_lt (by omega)

lemma initTensorP2PKeyList_getD (sender d N B i : Nat) (hB : 0 < B)
    (hi : i < (partitionLens N B).length)
    (hwrap : sender <<< 32 + d <<< 16 + 2 <<< 10 + (partitionLens N B).length ≤ 2 ^ 64) :
    (initTensorP2PKeyList sender d N B).getD i 0 =
      sender <<< 32 + d <<< 16 + 2 <<< 10 + i := by
  unfold initTensorP2PKeyList
  rw [initKeyList_eq_range_map B hB]
  rw [List.getD_eq_getElem?_getD, List.getElem?_map]
  rw [List.getElem?_range hi]
  show (sender <<< 32 + d <<< 16 + OperationType.P2P_OP.tag <<< 10 + i) % 2 ^ 64 = _
  have htag : OperationType.P2P_OP.tag = 2 := rfl
  rw [htag]
  exact Nat.mod_eq_of_lt (by omega)

/-- C5. For every push-pull tensor with declared key `d`, the `i`-th
entry (0-based) of the context `key_list` equals
`(d << 16) + (PUSH_PULL_OP << 10) + i`; consecutive partitions' keys differ
by exactly 1 in the low 10 bits; and for p2p tensors the key additionally
carries the sender rank in bits 63..32.  (The no-wraparound side conditions
reflect the documented key layout: at most `2^16` tensors and `2^10`
partitions per tensor.) -/
theorem init_tensor_key_layout (d sender N B : Nat) (hB : 0 < B)
    (hd : d < 2 ^ 16) (hsender : sender < 2 ^ 32)
    (hparts : (partitionLens N B).length ≤ 2 ^ 10) :
    (∀ i, i < (partitionLens N B).length →
      (initTensorKeyList d N B).getD i 0 = d <<< 16 + 1 <<< 10 + i) ∧
    (∀ i, i + 1 < (partitionLens N B).length →
      (initTensorKeyList d N B).getD (i + 1) 0 =
        (initTensorKeyList d N B).getD i 0 + 1 ∧
      ((initTensorKeyList d N B).getD (i + 1) 0) % 2 ^ 10 =
        ((initTensorKeyList d N B).getD i 0) % 2 ^ 10 + 1) ∧
    (∀ i, i < (partitionLens N B).length →
      (initTensorP2PKeyList sender d N B).getD i 0 =
        sender <<< 32 + (d <<< 16 + 2 <<< 10 + i) ∧
      ((initTensorP2PKeyList sender d N B).getD i 0) / 2 ^ 32 = sender) := by
  have hd16 : d <<< 16 = d * 2 ^ 16 := Nat.shiftLeft_eq d 16
  have hs32 : sender <<< 32 = sender * 2 ^ 32 := Nat.shiftLeft_eq sender 32
  have hwrap1 : d <<< 16 + 1 <<< 10 + (partitionLens N B).length ≤ 2 ^ 64 := by
    rw [hd16]; show _ + 1 * 2 ^ 10 + _ ≤ _
    have : d * 2 ^ 16 ≤ (2 ^ 16 - 1) * 2 ^ 16 := by
      exact Nat.mul_le_mul_right _ (by omega)
    omega
  have hlow : d <<< 16 + 2 <<< 10 + (partitionLens N B).length ≤ 2 ^ 32 := by
    rw [hd16]; show _ + 2 * 2 ^ 10 + _ ≤ _
    have : d * 2 ^ 16 ≤ (2 ^ 16 - 1) * 2 ^ 16 := Nat.mul_le_mul_right _ (by omega)
    omega
  have hwrap2 : sender <<< 32 + d <<< 16 + 2 <<< 10 + (partitionLens N B).length ≤ 2 ^ 64 := by
    rw [hs32]
    have : sender * 2 ^ 32 ≤ (2 ^ 32 - 1) * 2 ^ 32 := Nat.mul_le_mul_right _ (by omega)
    omega
  refine ⟨fun i hi => initTensorKeyList_getD d N B i hB hi hwrap1, ?_, ?_⟩
  · intro i hi
    have h1 := initTensorKeyList_getD d N B i hB (by omega) hwrap1
    have h2 := initTensorKeyList_getD d N B (i + 1) hB hi hwrap1
    constructor
    · omega
    · rw [h1, h2]
      have hi10 : i + 1 < 2 ^ 10 := by omega
      have hbase : d <<< 16 + 1 <<< 10 = (d * 2 ^ 6 + 1) * 2 ^ 10 := by
        rw [hd16]; show _ + 1 * 2 ^ 10 = _; ring
      rw [hbase]
      rw [Nat.add_comm _ (i + 1), Nat.add_mul_mod_self_right,
        Nat.add_comm _ i, Nat.add_mul_mod_self_right]
      rw [Nat.mod_eq_of_lt hi10, Nat.mod_eq_of_lt (by omega)]
  · intro i hi
    have h := initTensorP2PKeyList_getD sender d N B i hB hi hwrap2
    have heq : sender <<< 32 + d <<< 16 + 2 <<< 10 + i =
        sender <<< 32 + (d <<< 16 + 2 <<< 10 + i) := by omega
    refine ⟨by rw [h, heq], ?_⟩
    rw [h, heq, hs32]
    rw [Nat.add_comm, Nat.add_mul_div_right _ _ (by norm_num : 0 < 2 ^ 32)]
    have : (d <<< 16 + 2 <<< 10 + i) / 2 ^ 32 = 0 :=
      Nat.div_eq_of_lt (by omega)
    omega

/-- Witness for `init_tensor_key_layout`: `d = 3`, `sender = 7`,
`N = 10`, `B = 4` (3 partitions). -/
theorem init_tensor_key_layout_witness :
    (∀ i, i < (partitionLens 10 4).length →
      (initTensorKeyList 3 10 4).getD i 0 = 3 <<< 16 + 1 <<< 10 + i) ∧
    (∀ i, i + 1 < (partitionLens 10 4).length →
      (initTensorKeyList 3 10 4).getD (i + 1) 0 =
        (initTensorKeyList 3 10 4).getD i 0 + 1 ∧
      ((initTensorKeyList 3 10 4).getD (i + 1) 0) % 2 ^ 10 =
        ((initTensorKeyList 3 10 4).getD i 0) % 2 ^ 10 + 1) ∧
    (∀ i, i < (partitionLens 10 4).length →
      (initTensorP2PKeyList 7 3 10 4).getD i 0 =
        7 <<< 32 + (3 <<< 16 + 2 <<< 10 + i) ∧
      ((initTensorP2PKeyList 7 3 10 4).getD i 0) / 2 ^ 32 = 7) :=
  init_tensor_key_layout 3 7 10 4 (by decide) (by decide) (by norm_num)
    (by decide)

/-! ## Context table and declarations (`global.cc`)

`BytePSGlobal::DeclareTensor(name, op_type, provided_key, session)` keeps:

* `_name_to_cxt`  : map from (possibly session-prefixed) tensor name to context;
* `_declared_tensors` : names remembered in insertion order for re-declaration;
* `next_keys_[op_type]` : the next auto-assigned key per op-type namespace;
* `used_keys_[op_type]` : the set of keys already taken in that namespace.

`provided_key == -1` ("generate a new key") and `session == -1` ("no session
prefix") are sentinel values of the `int32_t` arguments, modelled as
`Option Nat` (`none` = `-1`).  A failing `BPS_CHECK` aborts the process,
modelled as `none` in the result.
-/

/-- The per-tensor context fields relevant to declaration. -/
structure BPSCtx where
  tensor_name : String
  base_tensor_name : String
  declared_key : Nat
  op_type : OperationType
  initialized : Bool
deriving DecidableEq, Repr

/-- The declaration-related global state of `BytePSGlobal`. -/
structure DeclGlobal where
  nameToCtx : List (String × BPSCtx)
  declaredTensors : List String
  nextKeys : OperationType → Nat
  usedKeys : OperationType → List Nat

/-- Pointwise update of a per-op-type table (`next_keys_[op] = v`). -/
def updOp {α : Type} (f : OperationType → α) (op : OperationType) (v : α) :
    OperationType → α :=
  fun o => if o = op then v else f o

/-- The `while (used_key_set.find(provided_key) != used_key_set.end())`
loop of `DeclareTensor`: starting from `next`, return the first key not in
`used` together with the advanced `next_keys_` counter.  `used.length + 1`
steps always suffice, so the fuel never runs out. -/
def genKeyAux : Nat → Nat → List Nat → Nat × Nat
  | 0, next, _ => (next, next + 1)
  | fuel + 1, next, used =>
    if next ∈ used then genKeyAux fuel (next + 1) used else (next, next + 1)

def genKey (next : Nat) (used : List Nat) : Nat × Nat :=
  genKeyAux (used.length + 1) next used

/-- The session-prefixed tensor name
(`"session_" + std::to_string(session) + "_" + name`). -/
def sessionTensorName (name : String) (session : Option Nat) : String :=
  match session with
  | none => name
  | some s => "session_" ++ toString s ++ "_" ++ name

/-- The state mutation of `DeclareTensor` on the not-yet-declared path:
remember the name (the membership test in the source is on the *unprefixed*
`name` while the pushed entry is the prefixed `tensorName`), insert the new
context, advance `next_keys_[op]` to `next` and mark `key` used. -/
def declareInsert (s : DeclGlobal) (name tensorName : String)
    (op : OperationType) (key next : Nat) : DeclGlobal :=
  { nameToCtx := s.nameToCtx ++
      [(tensorName,
        { tensor_name := tensorName, base_tensor_name := name,
          declared_key := key, op_type := op, initialized := false })],
    declaredTensors := if name ∈ s.declaredTensors then s.declaredTensors
                       else s.declaredTensors ++ [tensorName],
    nextKeys := updOp s.nextKeys op next,
    usedKeys := updOp s.usedKeys op (key :: s.usedKeys op) }

/-- Model of `BytePSGlobal::DeclareTensor` (`global.cc`).  Returns the declared key
and the new state, or `none` when the `BPS_CHECK` on an already-used
provided key fails (process abort). -/
def declareTensor (s : DeclGlobal) (name : String) (op : OperationType)
    (providedKey : Option Nat) (session : Option Nat) :
    Option (Nat × DeclGlobal) :=
  match s.nameToCtx.lookup (sessionTensorName name session) with
  | some ctx => some (ctx.declared_key, s)
  | none =>
    match providedKey with
    | none =>
      some ((genKey (s.nextKeys op) (s.usedKeys op)).1,
        declareInsert s name (sessionTensorName name session) op
          (genKey (s.nextKeys op) (s.usedKeys op)).1
          (genKey (s.nextKeys op) (s.usedKeys op)).2)
    | some k =>
      if k ∈ s.usedKeys op then none
      else some (k, declareInsert s name (sessionTensorName name session) op k
        (s.nextKeys op))

/-- The state reset performed at the end of `BytePSGlobal::Shutdown`
(`global.cc` lines 729-739): `_name_to_cxt` and `next_keys_` are cleared,
while `_declared_tensors` and `used_keys_` are left untouched. -/
def shutdownDecl (s : DeclGlobal) : DeclGlobal :=
  { nameToCtx := [],
    declaredTensors := s.declaredTensors,
    nextKeys := fun _ => 0,
    usedKeys := s.usedKeys }

/-- Model of `BytePSGlobal::ReDeclareTensor`: replay every remembered name with
`DeclareTensor(name, PUSH_PULL_OP, -1, -1)`. -/
def redeclareAux : List String → DeclGlobal → Option DeclGlobal
  | [], s => some s
  | n :: ns, s =>
    match declareTensor s n .PUSH_PULL_OP none none with
    | none => none
    | some (_, s') => redeclareAux ns s'

def redeclareTensor (s : DeclGlobal) : Option DeclGlobal :=
  redeclareAux s.declaredTensors s

lemma lookup_append_right {l : List (String × BPSCtx)} {a : String} {b : BPSCtx}
    (h : l.lookup a = none) : (l ++ [(a, b)]).lookup a = some b := by
  induction l with
  | nil => simp [List.lookup]
  | cons hd tl ih =>
    simp only [List.lookup, List.cons_append] at h ⊢
    cases hab : (a == hd.1) with
    | true => rw [hab] at h; exact Option.noConfusion h
    | false => rw [hab] at h; exact ih h

lemma declareInsert_lookup (s : DeclGlobal) (name tensorName : String)
    (op : OperationType) (key next : Nat)
    (h : s.nameToCtx.lookup tensorName = none) :
    (declareInsert s name tensorName op key next).nameToCtx.lookup tensorName =
      some { tensor_name := tensorName, base_tensor_name := name,
             declared_key := key, op_type := op, initialized := false } :=
  lookup_append_right h

/-- After a successful `declareTensor`, the (session-prefixed) name maps to
a context whose `declared_key` is the returned key. -/
lemma declareTensor_lookup {s : DeclGlobal} {name : String} {op : OperationType}
    {pk session : Option Nat} {k : Nat} {s' : DeclGlobal}
    (h : declareTensor s name op pk session = some (k, s')) :
    ∃ ctx, s'.nameToCtx.lookup (sessionTensorName name session) = some ctx ∧
      ctx.declared_key = k := by
  unfold declareTensor at h
  rcases hl : s.nameToCtx.lookup (sessionTensorName name session) with _ | ctx
  · rw [hl] at h
    rcases pk with _ | pkv
    · simp only [Option.some.injEq, Prod.mk.injEq] at h
      obtain ⟨hk, hs⟩ := h
      subst hk
      subst hs
      exact ⟨_, declareInsert_lookup s name _ op _ _ hl, rfl⟩
    · simp only at h
      by_cases hmem : pkv ∈ s.usedKeys op
      · rw [if_pos hmem] at h; exact absurd h (by simp)
      · rw [if_neg hmem] at h
        simp only [Option.some.injEq, Prod.mk.injEq] at h
        obtain ⟨hk, hs⟩ := h
        subst hk
        subst hs
        exact ⟨_, declareInsert_lookup s name _ op _ _ hl, rfl⟩
  · rw [hl] at h
    simp only [Option.some.injEq, Prod.mk.injEq] at h
    exact ⟨ctx, by rw [← h.2, hl], h.1⟩

/-- C3. Once a tensor is declared under a (possibly session-prefixed)
name, any subsequent `DeclareTensor` with the same name and op-type returns
the same declared key and leaves the state unchanged: no new context is
allocated and no key is consumed from the namespace. -/
theorem declare_tensor_idempotent (s : DeclGlobal) (name : String)
    (op : OperationType) (pk session : Option Nat) (k : Nat) (s' : DeclGlobal)
    (h : declareTensor s name op pk session = some (k, s')) :
    ∀ pk', declareTensor s' name op pk' session = some (k, s') := by
  intro pk'
  obtain ⟨ctx, hl, hk⟩ := declareTensor_lookup h
  unfold declareTensor
  rw [hl]
  show some (ctx.declared_key, s') = some (k, s')
  rw [hk]

/-- The state after declaring `"t"` as a push-pull tensor in the initial
(empty) declaration state. -/
def declEmpty : DeclGlobal :=
  { nameToCtx := [], declaredTensors := [],
    nextKeys := fun _ => 0, usedKeys := fun _ => [] }

def declCtxT : BPSCtx :=
  { tensor_name := "t", base_tensor_name := "t", declared_key := 0,
    op_type := .PUSH_PULL_OP, initialized := false }

def declAfterT : DeclGlobal :=
  { nameToCtx := [("t", declCtxT)], declaredTensors := ["t"],
    nextKeys := updOp declEmpty.nextKeys .PUSH_PULL_OP 1,
    usedKeys := updOp declEmpty.usedKeys .PUSH_PULL_OP [0] }

/-- Witness for `declare_tensor_idempotent`: declaring `"t"` a second time
returns the key `0` assigned by the first declaration and changes nothing. -/
theorem declare_tensor_idempotent_witness :
    declareTensor declAfterT "t" .PUSH_PULL_OP none none =
      some (0, declAfterT) :=
  declare_tensor_idempotent declEmpty "t" .PUSH_PULL_OP none none 0 declAfterT
    rfl none

/-- One declaration step ignoring the returned key (used to build concrete
states; `DeclareTensor` cannot fail with an auto-generated key). -/
def declStep (s : DeclGlobal) (n : String) : DeclGlobal :=
  match declareTensor s n .PUSH_PULL_OP none none with
  | some (_, s') => s'
  | none => s

/-- The state after declaring `"a"` then `"b"` (auto keys 0 and 1). -/
def declAfterAB : DeclGlobal := declStep (declStep declEmpty "a") "b"

/-- C2 (failing evaluation).  Declaring `"a"` and `"b"` assigns keys 0
and 1; after `Shutdown` (which clears `next_keys_` but not `used_keys_`)
and `ReDeclareTensor`, the replayed declarations skip the still-used keys
and assign `"a"` key 2 instead of 0 and `"b"` key 3 instead of 1. -/
theorem redeclare_does_not_preserve_keys :
    ((declAfterAB.nameToCtx.lookup "a").map (·.declared_key) = some 0 ∧
     (declAfterAB.nameToCtx.lookup "b").map (·.declared_key) = some 1) ∧
    ((redeclareTensor (shutdownDecl declAfterAB)).bind
        (fun s => (s.nameToCtx.lookup "a").map (·.declared_key)) = some 2 ∧
     (redeclareTensor (shutdownDecl declAfterAB)).bind
        (fun s => (s.nameToCtx.lookup "b").map (·.declared_key)) = some 3) := by
  constructor
  · constructor <;> rfl
  · constructor <;> rfl

/-! ## Key encoder (`BytePSGlobal::EncodeDefaultKey`, `global.cc`)

The hash functions operate on `uint64_t`; `Hash_DJB2` and `Hash_SDBM` hash
the decimal string of the key.  `std::hash<std::string>` (used by the
`built_in` knob) is implementation-defined, so it is a parameter of the
configuration; likewise the server key ranges come from the ps-lite
transport (out of scope) and enter as the `serverBegin` parameter.  The
`double` arithmetic of `Hash_Mixed_Mode` is modelled exactly with rationals.
-/

/-- Model of `Hash_Naive`: `((key >> 16) + (key % 65536)) * 9973` in `uint64_t`. -/
def hashNaive (key : Nat) : Nat :=
  ((key >>> 16) + key % 65536) * 9973 % 2 ^ 64

/-- Model of `Hash_DJB2` on the decimal string of the key:
`hash(i) = hash(i-1) * 33 + str[i]`, seeded with 5381, in `uint64_t`. -/
def hashDJB2 (key : Nat) : Nat :=
  (toString key).data.foldl (fun h c => ((h <<< 5) + h + c.toNat) % 2 ^ 64) 5381

/-- Model of `Hash_SDBM` on the decimal string of the key:
`hash(i) = str[i] + (hash << 6) + (hash << 16) - hash`, in `uint64_t`.
(The subtrahend never exceeds the sum, so `Nat` subtraction is exact.) -/
def hashSDBM (key : Nat) : Nat :=
  (toString key).data.foldl
    (fun h c => (c.toNat + (h <<< 6) + (h <<< 16) - h) % 2 ^ 64) 0

/-- The configuration read by the encoder: counts and knobs from
`BytePSGlobal`, plus the external ps-lite server key ranges
(`krs[server].begin()`) and the implementation-defined stdlib string hash. -/
structure EncCfg where
  numServers : Nat
  serverBegin : Nat → Nat
  hashKnob : String
  numPhyNode : Nat
  localSize : Nat
  serverLocalRoot : Nat
  builtInHash : Nat → Nat
  builtInCoefficient : Nat
  numWorker : Nat
  mixedModeBound : Nat
  mixedMode : Bool

/-- Model of `Hash_BuiltIn`: stdlib string hash times the configured coefficient. -/
def hashBuiltIn (cfg : EncCfg) (key : Nat) : Nat :=
  cfg.builtInHash key * cfg.builtInCoefficient % 2 ^ 64

/-- Model of `Hash_Mixed_Mode`: split the servers into non-colocated and colocated
groups; a DJB2-derived draw below `ratio * bound` picks the non-colocated
group.  The `double` ratio is modelled with exact rational arithmetic. -/
def hashMixedMode (cfg : EncCfg) (key : Nat) : Nat :=
  let numServerNoncolocate := cfg.numServers - cfg.numWorker
  let numServerColocate := cfg.numWorker
  let ratio : ℚ :=
    (2 * numServerNoncolocate * (cfg.numWorker - 1) : Nat) /
      ((cfg.numWorker * (cfg.numWorker + numServerNoncolocate) -
        2 * numServerNoncolocate : Nat))
  let threshold : ℚ := ratio * cfg.mixedModeBound
  let hashRes := hashDJB2 key % cfg.mixedModeBound
  if (hashRes : ℚ) < threshold then hashDJB2 hashRes % numServerNoncolocate
  else numServerNoncolocate + hashDJB2 hashRes % numServerColocate

/-- The hash-knob dispatch inside `EncodeDefaultKey`; `none` models the
aborting `BPS_CHECK` on an unsupported knob or on `mixed` without
`BYTEPS_ENABLE_MIXED_MODE`. -/
def serverOfKey (cfg : EncCfg) (key : Nat) : Option Nat :=
  if cfg.hashKnob = "naive" then some (hashNaive key % cfg.numServers)
  else if cfg.hashKnob = "built_in" then some (hashBuiltIn cfg key % cfg.numServers)
  else if cfg.hashKnob = "djb2" then some (hashDJB2 key % cfg.numServers)
  else if cfg.hashKnob = "djb2-colocate" then
    some (hashDJB2 key % cfg.numPhyNode * cfg.localSize + cfg.serverLocalRoot)
  else if cfg.hashKnob = "sdbm" then some (hashSDBM key % cfg.numServers)
  else if cfg.hashKnob = "mixed" then
    if cfg.mixedMode then some (hashMixedMode cfg key) else none
  else none

/-- The C++ `struct PSKV` (keys/lens/size triple cached per routing key). -/
structure PSKV where
  keys : List Nat
  lens : List Nat
  size : Nat
deriving DecidableEq, Repr

/-- The encoder's mutable state: the `ps_kv_` memo map and the per-server
accumulated-length load counters. -/
structure EncState where
  psKv : List (Nat × PSKV)
  serverAccumulatedLen : List Nat
  totalAccumulatedLen : Nat
deriving DecidableEq, Repr

/-- Update-or-insert into the `ps_kv_` map (`ps_kv_[key]` semantics). -/
def insertKv : List (Nat × PSKV) → Nat → PSKV → List (Nat × PSKV)
  | [], k, v => [(k, v)]
  | (k', v') :: rest, k, v =>
    if k' = k then (k, v) :: rest else (k', v') :: insertKv rest k v

/-- Model of `BytePSGlobal::EncodeDefaultKey(key, len)`: if the key is already in
`ps_kv_` (non-empty `keys`), refresh `size`/`lens[0]` when a nonzero `len`
differs and return the memoized entry; otherwise pick the server by the
configured hash, record the load, and cache `krs[server].begin() + key`. -/
def encodeDefaultKey (cfg : EncCfg) (s : EncState) (key len : Nat) :
    Option (PSKV × EncState) :=
  match (s.psKv.lookup key).getD ⟨[], [], 0⟩ with
  | pskv =>
    if pskv.keys ≠ [] then
      if 0 < len ∧ pskv.size ≠ len then
        let pskv' : PSKV := { pskv with size := len, lens := pskv.lens.set 0 len }
        some (pskv', { s with psKv := insertKv s.psKv key pskv' })
      else
        some (pskv, { s with psKv := insertKv s.psKv key pskv })
    else
      match serverOfKey cfg key with
      | none => none
      | some server =>
        let psKey := (cfg.serverBegin server + key) % 2 ^ 64
        let pskv' : PSKV := { keys := [psKey], lens := [len], size := len }
        some (pskv',
          { psKv := insertKv s.psKv key pskv',
            serverAccumulatedLen := s.serverAccumulatedLen.set server
              (s.serverAccumulatedLen.getD server 0 + len),
            totalAccumulatedLen := s.totalAccumulatedLen + len })

/-- A sequence of `EncodeDefaultKey` calls on the same key, one per entry
of `lens`; returns every returned `PSKV` in order. -/
def encodeSeq (cfg : EncCfg) : EncState → Nat → List Nat →
    Option (List PSKV × EncState)
  | s, _, [] => some ([], s)
  | s, key, len :: rest =>
    match encodeDefaultKey cfg s key len with
    | none => none
    | some (p, s') =>
      match encodeSeq cfg s' key rest with
      | none => none
      | some (ps, s'') => some (p :: ps, s'')

lemma lookup_insertKv (l : List (Nat × PSKV)) (k : Nat) (v : PSKV) :
    (insertKv l k v).lookup k = some v := by
  induction l with
  | nil => simp [insertKv, List.lookup]
  | cons hd tl ih =>
    by_cases hk : hd.1 = k
    · simp [insertKv, hk, List.lookup]
    · obtain ⟨k', v'⟩ := hd
      simp only at hk
      simp only [insertKv, if_neg hk, List.lookup]
      have : (k == k') = false := by
        simp only [beq_eq_false_iff_ne, ne_eq]
        omega
      rw [this]
      exact ih

/-- A successful call leaves the key memoized with exactly the returned
entry, whose `keys` field is non-empty. -/
lemma encodeDefaultKey_memo {cfg : EncCfg} {s : EncState} {key len : Nat}
    {p : PSKV} {s' : EncState}
    (h : encodeDefaultKey cfg s key len = some (p, s')) :
    s'.psKv.lookup key = some p ∧ p.keys ≠ [] := by
  unfold encodeDefaultKey at h
  simp only at h
  by_cases hne : ((s.psKv.lookup key).getD ⟨[], [], 0⟩).keys ≠ []
  · rw [if_pos hne] at h
    by_cases hlen : 0 < len ∧ ((s.psKv.lookup key).getD ⟨[], [], 0⟩).size ≠ len
    · rw [if_pos hlen] at h
      simp only [Option.some.injEq, Prod.mk.injEq] at h
      obtain ⟨hp, hs⟩ := h
      subst hp; subst hs
      exact ⟨lookup_insertKv _ _ _, hne⟩
    · rw [if_neg hlen] at h
      simp only [Option.some.injEq, Prod.mk.injEq] at h
      obtain ⟨hp, hs⟩ := h
      subst hp; subst hs
      exact ⟨lookup_insertKv _ _ _, hne⟩
  · rw [if_neg hne] at h
    rcases hsrv : serverOfKey cfg key with _ | server
    · rw [hsrv] at h; exact absurd h (by simp)
    · rw [hsrv] at h
      simp only [Option.some.injEq, Prod.mk.injEq] at h
      obtain ⟨hp, hs⟩ := h
      subst hp; subst hs
      exact ⟨lookup_insertKv _ _ _, by simp⟩

/-- A call on a memoized key returns an entry with the same `keys` and
keeps the key memoized. -/
lemma encodeDefaultKey_step {cfg : EncCfg} {s : EncState} {key : Nat}
    {q : PSKV} (hq : s.psKv.lookup key = some q) (hne : q.keys ≠ []) (len : Nat) :
    ∃ p s', encodeDefaultKey cfg s key len = some (p, s') ∧ p.keys = q.keys ∧
      s'.psKv.lookup key = some p := by
  unfold encodeDefaultKey
  simp only [hq, Option.getD_some]
  rw [if_pos hne]
  by_cases hlen : 0 < len ∧ q.size ≠ len
  · rw [if_pos hlen]
    exact ⟨_, _, rfl, rfl, lookup_insertKv _ _ _⟩
  · rw [if_neg hlen]
    exact ⟨_, _, rfl, rfl, lookup_insertKv _ _ _⟩

/-- C4. For every routing key `K`, once `EncodeDefaultKey(K, len)` has
been called, every subsequent call with any sequence of `len` arguments
succeeds and returns the same cached `keys` (hence the same server
assignment `pskv.keys[0]`) as the first call. -/
theorem encode_default_key_stable (cfg : EncCfg) (s : EncState)
    (key len₀ : Nat) (p₀ : PSKV) (s₀ : EncState)
    (h : encodeDefaultKey cfg s key len₀ = some (p₀, s₀)) :
    ∀ lens : List Nat, ∃ ps s', encodeSeq cfg s₀ key lens = some (ps, s') ∧
      ∀ p ∈ ps, p.keys = p₀.keys := by
  obtain ⟨hmemo, hne⟩ := encodeDefaultKey_memo h
  clear h
  have main : ∀ (lens : List Nat) (t : EncState) (q : PSKV),
      t.psKv.lookup key = some q → q.keys = p₀.keys → q.keys ≠ [] →
      ∃ ps s', encodeSeq cfg t key lens = some (ps, s') ∧
        ∀ p ∈ ps, p.keys = p₀.keys := by
    intro lens
    induction lens with
    | nil => exact fun t q _ _ _ => ⟨[], t, rfl, by simp⟩
    | cons len rest ih =>
      intro t q hq hqk hqne
      obtain ⟨p, t', hcall, hpk, hmemo'⟩ :=
        @encodeDefaultKey_step cfg t key q hq hqne len
      obtain ⟨ps, s', hrest, hall⟩ := ih t' p hmemo' (hpk.trans hqk)
        (hpk ▸ hqne)
      refine ⟨p :: ps, s', ?_, ?_⟩
      · simp only [encodeSeq, hcall, hrest]
      · intro x hx
        rcases List.mem_cons.mp hx with hx | hx
        · subst hx; exact hpk.trans hqk
        · exact hall x hx
  exact fun lens => main lens s₀ p₀ hmemo rfl hne

/-- A concrete encoder configuration for the witness: one server,
`naive` hash, trivial key range. -/
def encCfgW : EncCfg :=
  { numServers := 1, serverBegin := fun _ => 0, hashKnob := "naive",
    numPhyNode := 1, localSize := 1, serverLocalRoot := 0,
    builtInHash := fun k => k, builtInCoefficient := 1, numWorker := 1,
    mixedModeBound := 101, mixedMode := false }

def encStateW : EncState :=
  { psKv := [], serverAccumulatedLen := [0], totalAccumulatedLen := 0 }

def encPskvW : PSKV := { keys := [5], lens := [7], size := 7 }

def encStateW' : EncState :=
  { psKv := [(5, encPskvW)], serverAccumulatedLen := [7],
    totalAccumulatedLen := 7 }

/-- Witness for `encode_default_key_stable`: key 5 first encoded with
`len = 7`, then re-encoded with lens `[0, 9]`. -/
theorem encode_default_key_stable_witness :
    ∃ ps s', encodeSeq encCfgW encStateW' 5 [0, 9] = some (ps, s') ∧
      ∀ p ∈ ps, p.keys = encPskvW.keys :=
  encode_default_key_stable encCfgW encStateW 5 7 encPskvW encStateW'
    (by rfl) [0, 9]

/-! ## Enqueue front-end: `EnqueueTensor` (`operations.cc`)

The compressor rewrite in `EnqueueTensor`:

```
auto it = std::find(queue_list->begin(), queue_list->end(), PUSH);
it = queue_list->insert(it, COMPRESS);   // before PUSH
it = std::find(queue_list->begin(), queue_list->end(), PULL);
queue_list->insert(it + 1, DECOMPRESS);  // after PULL
```

`std::find` returns the first occurrence (or `end()`); `insert` at `end()`
appends.  When `PULL` is absent, `insert(end() + 1, ...)` is undefined
behaviour in the source; that case is modelled as a no-op and excluded by
the theorem's hypotheses.
-/

/-- Insert `ins` immediately before the first occurrence of `tgt`
(append when absent, matching `insert(std::find(...), ins)`). -/
def insertBeforeFirst : List QueueType → QueueType → QueueType → List QueueType
  | [], _, ins => [ins]
  | x :: xs, tgt, ins =>
    if x = tgt then ins :: x :: xs else x :: insertBeforeFirst xs tgt ins

/-- Insert `ins` immediately after the first occurrence of `tgt`
(the absent case is UB in the source; modelled as a no-op). -/
def insertAfterFirst : List QueueType → QueueType → QueueType → List QueueType
  | [], _, _ => []
  | x :: xs, tgt, ins =>
    if x = tgt then x :: ins :: xs else x :: insertAfterFirst xs tgt ins

/-- The stage-list rewrite of `EnqueueTensor`: on the local root with a
non-empty compressor list, insert `COMPRESS` before `PUSH` and
`DECOMPRESS` after `PULL`. -/
def enqueueCompressRewrite (isRootDevice compressorNonempty : Bool)
    (l : List QueueType) : List QueueType :=
  if isRootDevice && compressorNonempty then
    insertAfterFirst (insertBeforeFirst l .PUSH .COMPRESS) .PULL .DECOMPRESS
  else l

lemma insertBeforeFirst_append (l₁ l₂ : List QueueType) (tgt ins : QueueType)
    (h : tgt ∉ l₁) :
    insertBeforeFirst (l₁ ++ tgt :: l₂) tgt ins = l₁ ++ ins :: tgt :: l₂ := by
  induction l₁ with
  | nil => simp [insertBeforeFirst]
  | cons x xs ih =>
    have hx : x ≠ tgt := fun he => h (he ▸ List.mem_cons_self x xs)
    simp only [List.cons_append, insertBeforeFirst, if_neg hx]
    exact congrArg (x :: .) (ih (fun hm => h (List.mem_cons_of_mem x hm)))

lemma insertAfterFirst_append (l₁ l₂ : List QueueType) (tgt ins : QueueType)
    (h : tgt ∉ l₁) :
    insertAfterFirst (l₁ ++ tgt :: l₂) tgt ins = l₁ ++ tgt :: ins :: l₂ := by
  induction l₁ with
  | nil => simp [insertAfterFirst]
  | cons x xs ih =>
    have hx : x ≠ tgt := fun he => h (he ▸ List.mem_cons_self x xs)
    simp only [List.cons_append, insertAfterFirst, if_neg hx]
    exact congrArg (x :: .) (ih (fun hm => h (List.mem_cons_of_mem x hm)))

/-- C6. On the local root with a non-empty compressor list, the
stage-list rewrite of `EnqueueTensor` inserts `COMPRESS` immediately before
the (first) `PUSH` stage and `DECOMPRESS` immediately after the (first)
`PULL` stage, leaving all other stages and their relative order unchanged.
(`l₁`, `l₂`, `l₃` decompose the stage list around its first `PUSH` and
first `PULL`; in every list built by `GetPushQueueList ++ GetPullQueueList`
the `PUSH` precedes the `PULL`.) -/
theorem enqueue_compress_insertion (l₁ l₂ l₃ : List QueueType)
    (h₁ : QueueType.PUSH ∉ l₁) (h₂ : QueueType.PULL ∉ l₁)
    (h₃ : QueueType.PULL ∉ l₂) :
    enqueueCompressRewrite true true
        (l₁ ++ QueueType.PUSH :: l₂ ++ QueueType.PULL :: l₃) =
      l₁ ++ QueueType.COMPRESS :: QueueType.PUSH :: l₂ ++
        QueueType.PULL :: QueueType.DECOMPRESS :: l₃ := by
  unfold enqueueCompressRewrite
  simp only [Bool.and_self, if_pos]
  have hb : insertBeforeFirst
      (l₁ ++ QueueType.PUSH :: (l₂ ++ QueueType.PULL :: l₃)) .PUSH .COMPRESS =
      l₁ ++ QueueType.COMPRESS :: QueueType.PUSH :: (l₂ ++ QueueType.PULL :: l₃) :=
    insertBeforeFirst_append l₁ (l₂ ++ QueueType.PULL :: l₃) .PUSH .COMPRESS h₁
  rw [show l₁ ++ QueueType.PUSH :: l₂ ++ QueueType.PULL :: l₃ =
      l₁ ++ QueueType.PUSH :: (l₂ ++ QueueType.PULL :: l₃) by simp, hb]
  have hnotin : QueueType.PULL ∉
      l₁ ++ QueueType.COMPRESS :: QueueType.PUSH :: l₂ := by
    intro hm
    rcases List.mem_append.mp hm with hm | hm
    · exact h₂ hm
    · rcases List.mem_cons.mp hm with hm | hm
      · exact QueueType.noConfusion hm
      · rcases List.mem_cons.mp hm with hm | hm
        · exact QueueType.noConfusion hm
        · exact h₃ hm
  have ha := insertAfterFirst_append
    (l₁ ++ QueueType.COMPRESS :: QueueType.PUSH :: l₂) l₃ .PULL .DECOMPRESS hnotin
  rw [show l₁ ++ QueueType.COMPRESS :: QueueType.PUSH :: (l₂ ++ QueueType.PULL :: l₃) =
      (l₁ ++ QueueType.COMPRESS :: QueueType.PUSH :: l₂) ++ QueueType.PULL :: l₃ by simp, ha]

/-- Witness for `enqueue_compress_insertion` on the root-device distributed
GPU stage list `REDUCE COPYD2H PUSH PULL COPYH2D BROADCAST`. -/
theorem enqueue_compress_insertion_witness :
    enqueueCompressRewrite true true
        ([QueueType.REDUCE, QueueType.COPYD2H] ++ QueueType.PUSH ::
          [] ++ QueueType.PULL :: [QueueType.COPYH2D, QueueType.BROADCAST]) =
      [QueueType.REDUCE, QueueType.COPYD2H] ++ QueueType.COMPRESS ::
        QueueType.PUSH :: [] ++ QueueType.PULL :: QueueType.DECOMPRESS ::
          [QueueType.COPYH2D, QueueType.BROADCAST] :=
  enqueue_compress_insertion [QueueType.REDUCE, QueueType.COPYD2H] []
    [QueueType.COPYH2D, QueueType.BROADCAST]
    (by decide) (by decide) (by decide)

/-! ## `EnqueueAlltoAllTensor` (`operations.cc`)

The function builds one request task and up to `num_ranks` response tasks.
`use_pull = IsAlltoallUsePull() && !output_size_unknown`; the request
offsets come from `recv_begin` in pull mode, else from `send_begin`
(`resp_begin` the other way round); `num_ranks = send_begin.size() - 1`.
`unit_size = getDataTypeLength(dtype)` is positive.  The per-rank byte
counters are `int`, modelled as `Int`.
-/

/-- Model of `num_ps_requests`: the counting loop over ranks in
`EnqueueAlltoAllTensor` (one pass, `request_size = unit * (begin[i+1] -
begin[i])`). -/
def numPsRequests (outputSizeUnknown : Bool) (myRank : Nat) (unitSize : Int)
    (requestBegin : List Int) (numRanks : Nat) : Nat :=
  (List.range numRanks).foldl (fun acc i =>
    if outputSizeUnknown && i ≠ myRank then acc + 1
    else if i ≠ myRank &&
        unitSize * (requestBegin.getD (i + 1) 0 - requestBegin.getD i 0) ≠ 0 then
      acc + 1
    else acc) 0

/-- Model of `resp_total_partnum`: starts at 1 when the output size is unknown, and
otherwise counts the ranks with a non-empty response slot. -/
def respTotalPartnum (outputSizeUnknown : Bool) (unitSize : Int)
    (respBegin : List Int) (numRanks : Nat) : Nat :=
  (List.range numRanks).foldl (fun acc i =>
    if !outputSizeUnknown &&
        unitSize * (respBegin.getD (i + 1) 0 - respBegin.getD i 0) ≠ 0 then
      acc + 1
    else acc) (if outputSizeUnknown then 1 else 0)

/-- The observable outcome of one `EnqueueAlltoAllTensor` call. -/
structure AlltoallOutcome where
  status : StatusType
  numPsRequests : Nat
  requestCounter : Nat
  requestTotalPartnum : Nat
  respTotalPartnum : Nat
  totalPartnum : Nat
  requestEnqueued : Bool
  respTasksEnqueued : Nat
  immediateCallbacks : Nat
deriving DecidableEq, Repr

/-- Model of `EnqueueAlltoAllTensor`: early-return on shutdown; otherwise count the
PS requests and response partitions, enqueue the request task iff
`request_total_partnum != 0`, enqueue the response tasks (a single group
task when the output size is unknown, else one per rank with a non-empty
slot), and invoke the callback immediately iff `total_partnum == 0`. -/
def enqueueAlltoAllTensor (shouldShutdown usePullEnv outputSizeUnknown : Bool)
    (myRank : Nat) (unitSize : Int) (sendBegin recvBegin : List Int) :
    AlltoallOutcome :=
  if shouldShutdown then
    { status := .OK, numPsRequests := 0, requestCounter := 0,
      requestTotalPartnum := 0, respTotalPartnum := 0, totalPartnum := 0,
      requestEnqueued := false, respTasksEnqueued := 0, immediateCallbacks := 0 }
  else
    let usePull := usePullEnv && !outputSizeUnknown
    let numRanks := sendBegin.length - 1
    let requestBegin := if usePull then recvBegin else sendBegin
    let respBegin := if usePull then sendBegin else recvBegin
    let nps := numPsRequests outputSizeUnknown myRank unitSize requestBegin numRanks
    let rtp := respTotalPartnum outputSizeUnknown unitSize respBegin numRanks
    let reqTp := if !outputSizeUnknown && nps = 0 then 0 else 1
    let total := reqTp + rtp
    { status := .OK, numPsRequests := nps, requestCounter := nps,
      requestTotalPartnum := reqTp, respTotalPartnum := rtp, totalPartnum := total,
      requestEnqueued := reqTp != 0,
      respTasksEnqueued :=
        if total = 0 then 0
        else if rtp ≠ 0 then
          if outputSizeUnknown then 1
          else ((List.range numRanks).filter (fun i =>
            unitSize * (respBegin.getD (i + 1) 0 - respBegin.getD i 0) ≠ 0)).length
        else 0,
      immediateCallbacks := if total = 0 then 1 else 0 }

lemma foldl_count_eq_filter_length {α : Type} (p : α → Bool) (l : List α) :
    ∀ n : Nat, l.foldl (fun acc i => if p i then acc + 1 else acc) n =
      n + (l.filter p).length := by
  induction l with
  | nil => intro n; simp
  | cons x xs ih =>
    intro n
    cases hx : p x with
    | false => simp [hx, ih n]
    | true =>
      simp only [List.foldl_cons, List.filter_cons, hx, if_pos, ih (n + 1),
        List.length_cons]
      omega

lemma numPsRequests_unknown (myRank : Nat) (unit : Int) (rb : List Int)
    (n : Nat) :
    numPsRequests true myRank unit rb n =
      ((List.range n).filter (fun i => decide (i ≠ myRank))).length := by
  unfold numPsRequests
  have H : ∀ (acc : Nat), ∀ i ∈ List.range n,
      (if true && i ≠ myRank then acc + 1
       else if i ≠ myRank && unit * (rb.getD (i + 1) 0 - rb.getD i 0) ≠ 0 then
         acc + 1
       else acc) =
      (if decide (i ≠ myRank) then acc + 1 else acc) := by
    intro acc i _
    by_cases hi : i = myRank <;> simp [hi]
  rw [List.foldl_ext _ _ 0 H, foldl_count_eq_filter_length]
  omega

lemma numPsRequests_known (myRank : Nat) (unit : Int) (rb : List Int)
    (n : Nat) (hunit : unit ≠ 0) :
    numPsRequests false myRank unit rb n =
      ((List.range n).filter (fun i =>
        decide (i ≠ myRank) &&
          decide (rb.getD (i + 1) 0 - rb.getD i 0 ≠ 0))).length := by
  unfold numPsRequests
  have H : ∀ (acc : Nat), ∀ i ∈ List.range n,
      (if false && i ≠ myRank then acc + 1
       else if i ≠ myRank && unit * (rb.getD (i + 1) 0 - rb.getD i 0) ≠ 0 then
         acc + 1
       else acc) =
      (if (decide (i ≠ myRank) &&
          decide (rb.getD (i + 1) 0 - rb.getD i 0 ≠ 0)) then acc + 1
       else acc) := by
    intro acc i _
    have hdec : decide (unit * (rb.getD (i + 1) 0 - rb.getD i 0) ≠ 0) =
        decide (rb.getD (i + 1) 0 - rb.getD i 0 ≠ 0) := by
      rcases eq_or_ne (rb.getD (i + 1) 0 - rb.getD i 0) 0 with hd | hd
      · rw [hd, mul_zero]
      · exact decide_eq_decide.mpr ⟨fun _ => hd, fun _ => mul_ne_zero hunit hd⟩
    rw [hdec]
    simp
  rw [List.foldl_ext _ _ 0 H, foldl_count_eq_filter_length]
  omega

/-- C7 (counterexample input).  With `output_size_unknown = true`,
2 ranks, `my_rank = 0` and all request slots empty, the code counts
`num_ps_requests = 1` (every non-self rank), while the claim — the number
of non-self ranks with a non-empty request slot — demands 0. -/
theorem alltoall_num_ps_requests_counterexample :
    (enqueueAlltoAllTensor false false true 0 4 [0, 0, 0] [0, 0, 0]).numPsRequests
        = 1 ∧
    ((List.range 2).filter (fun i => decide (i ≠ 0) &&
        decide (([0, 0, 0] : List Int).getD (i + 1) 0 -
          ([0, 0, 0] : List Int).getD i 0 ≠ 0))).length = 0 := by
  constructor <;> rfl

/-- C7 (amended).  In `EnqueueAlltoAllTensor`, when
`output_size_unknown` is false, `num_ps_requests` equals the number of
ranks `i ≠ my_rank` whose request slot is non-empty
(`request_begin[i+1] - request_begin[i] ≠ 0`); when `output_size_unknown`
is true it instead counts *every* rank `i ≠ my_rank`.  In both cases the
request task's `request_counter` is initialized to exactly
`num_ps_requests`. -/
theorem alltoall_num_ps_requests_amended (usePullEnv outputSizeUnknown : Bool)
    (myRank : Nat) (unitSize : Int) (sendBegin recvBegin : List Int)
    (hunit : 0 < unitSize) :
    (enqueueAlltoAllTensor false usePullEnv outputSizeUnknown myRank unitSize
        sendBegin recvBegin).numPsRequests =
      (if outputSizeUnknown then
        ((List.range (sendBegin.length - 1)).filter
          (fun i => decide (i ≠ myRank))).length
      else
        ((List.range (sendBegin.length - 1)).filter (fun i =>
          decide (i ≠ myRank) &&
          decide ((if usePullEnv then recvBegin else sendBegin).getD (i + 1) 0 -
            (if usePullEnv then recvBegin else sendBegin).getD i 0 ≠ 0))).length) ∧
    (enqueueAlltoAllTensor false usePullEnv outputSizeUnknown myRank unitSize
        sendBegin recvBegin).requestCounter =
      (enqueueAlltoAllTensor false usePullEnv outputSizeUnknown myRank unitSize
        sendBegin recvBegin).numPsRequests := by
  refine ⟨?_, rfl⟩
  cases outputSizeUnknown with
  | true =>
    cases usePullEnv with
    | true =>
      show numPsRequests true myRank unitSize sendBegin (sendBegin.length - 1) = _
      rw [numPsRequests_unknown]
      rfl
    | false =>
      show numPsRequests true myRank unitSize sendBegin (sendBegin.length - 1) = _
      rw [numPsRequests_unknown]
      rfl
  | false =>
    cases usePullEnv with
    | true =>
      show numPsRequests false myRank unitSize recvBegin (sendBegin.length - 1) = _
      rw [numPsRequests_known _ _ _ _ (by omega)]
      rfl
    | false =>
      show numPsRequests false myRank unitSize sendBegin (sendBegin.length - 1) = _
      rw [numPsRequests_known _ _ _ _ (by omega)]
      rfl

/-- Witness for `alltoall_num_ps_requests_amended`: push mode, known
sizes, 3 ranks, `my_rank = 1`, `send_begin = [0, 25, 25, 75]`
(slots 25, 0, 50): two non-self non-empty request slots. -/
theorem alltoall_num_ps_requests_amended_witness :
    (enqueueAlltoAllTensor false false false 1 4 [0, 25, 25, 75]
        [0, 0, 0, 0]).numPsRequests = 2 ∧
    (enqueueAlltoAllTensor false false false 1 4 [0, 25, 25, 75]
        [0, 0, 0, 0]).requestCounter =
      (enqueueAlltoAllTensor false false false 1 4 [0, 25, 25, 75]
        [0, 0, 0, 0]).numPsRequests := by
  have h := alltoall_num_ps_requests_amended false false 1 4 [0, 25, 25, 75]
    [0, 0, 0, 0] (by decide)
  exact ⟨by rw [h.1]; decide, h.2⟩

lemma foldl_fixed_nat (l : List Nat) (m : Nat) :
    l.foldl (fun acc _ => acc) m = m := by
  induction l generalizing m with
  | nil => rfl
  | cons x xs ih => exact ih m

/-- With every non-self request slot empty (and the size check off the
unknown-size path), the counting loop leaves `num_ps_requests` at 0. -/
lemma numPsRequests_known_zero (myRank : Nat) (unit : Int) (rb : List Int)
    (n : Nat)
    (hz : ∀ i, i < n → i ≠ myRank → rb.getD (i + 1) 0 - rb.getD i 0 = 0) :
    numPsRequests false myRank unit rb n = 0 := by
  unfold numPsRequests
  have H : ∀ (acc : Nat), ∀ i ∈ List.range n,
      (if false && i ≠ myRank then acc + 1
       else if i ≠ myRank && unit * (rb.getD (i + 1) 0 - rb.getD i 0) ≠ 0 then
         acc + 1
       else acc) = acc := by
    intro acc i hi
    rw [List.mem_range] at hi
    by_cases hm : i = myRank
    · simp [hm]
    · simp [hm]
      intro _
      simpa [List.getD_eq_getElem?_getD] using hz i hi hm
  rw [List.foldl_ext _ _ 0 H, foldl_fixed_nat]

/-- With every response slot empty, the response-counting loop leaves
`resp_total_partnum` at 0 on the known-size path. -/
lemma respTotalPartnum_known_zero (unit : Int) (rb : List Int) (n : Nat)
    (hz : ∀ i, i < n → rb.getD (i + 1) 0 - rb.getD i 0 = 0) :
    respTotalPartnum false unit rb n = 0 := by
  unfold respTotalPartnum
  have H : ∀ (acc : Nat), ∀ i ∈ List.range n,
      (if !false && unit * (rb.getD (i + 1) 0 - rb.getD i 0) ≠ 0 then acc + 1
       else acc) = acc := by
    intro acc i hi
    rw [List.mem_range] at hi
    simp
    intro _
    simpa [List.getD_eq_getElem?_getD] using hz i hi
  rw [List.foldl_ext _ _ _ H, foldl_fixed_nat]
  rfl

/-- C8 (counterexample input).  With `output_size_unknown = true` and
*every* slot (self included) empty, the code still enqueues the request
task, sets `total_partnum = 2`, and does not invoke the callback
immediately — against the claim's "no PS request task", "`total_partnum`
is 0" and "callback invoked exactly once, immediately". -/
theorem alltoall_empty_slots_counterexample :
    (enqueueAlltoAllTensor false false true 0 4 [0, 0, 0, 0]
        [0, 0, 0, 0]).requestEnqueued = true ∧
    (enqueueAlltoAllTensor false false true 0 4 [0, 0, 0, 0]
        [0, 0, 0, 0]).totalPartnum = 2 ∧
    (enqueueAlltoAllTensor false false true 0 4 [0, 0, 0, 0]
        [0, 0, 0, 0]).immediateCallbacks = 0 := by
  refine ⟨rfl, rfl, rfl⟩

/-- C8 (amended).  For an all-to-all submission with *known* output
sizes (`output_size_unknown = false`) in which every non-self send and
recv slot is zero, `EnqueueAlltoAllTensor` issues no PS request task
(`num_ps_requests = 0`, request task not enqueued) and returns OK; if the
self slot is also zero, `total_partnum` is 0, no task is enqueued on any
queue, and the callback is invoked exactly once, immediately. -/
theorem alltoall_empty_slots_amended (usePullEnv : Bool) (myRank : Nat)
    (unitSize : Int) (sendBegin recvBegin : List Int)
    (hsend : ∀ i, i < sendBegin.length - 1 → i ≠ myRank →
      sendBegin.getD (i + 1) 0 - sendBegin.getD i 0 = 0)
    (hrecv : ∀ i, i < sendBegin.length - 1 → i ≠ myRank →
      recvBegin.getD (i + 1) 0 - recvBegin.getD i 0 = 0) :
    (enqueueAlltoAllTensor false usePullEnv false myRank unitSize sendBegin
        recvBegin).numPsRequests = 0 ∧
    (enqueueAlltoAllTensor false usePullEnv false myRank unitSize sendBegin
        recvBegin).requestEnqueued = false ∧
    (enqueueAlltoAllTensor false usePullEnv false myRank unitSize sendBegin
        recvBegin).status = .OK ∧
    (sendBegin.getD (myRank + 1) 0 - sendBegin.getD myRank 0 = 0 →
     recvBegin.getD (myRank + 1) 0 - recvBegin.getD myRank 0 = 0 →
      (enqueueAlltoAllTensor false usePullEnv false myRank unitSize sendBegin
          recvBegin).totalPartnum = 0 ∧
      (enqueueAlltoAllTensor false usePullEnv false myRank unitSize sendBegin
          recvBegin).respTasksEnqueued = 0 ∧
      (enqueueAlltoAllTensor false usePullEnv false myRank unitSize sendBegin
          recvBegin).immediateCallbacks = 1) := by
  cases usePullEnv with
  | true =>
    have hnps : numPsRequests false myRank unitSize recvBegin
        (sendBegin.length - 1) = 0 :=
      numPsRequests_known_zero myRank unitSize recvBegin _ hrecv
    refine ⟨hnps, ?_, rfl, ?_⟩
    · show ((if (!false && decide (numPsRequests false myRank unitSize recvBegin
          (sendBegin.length - 1) = 0) : Bool) = true then (0 : Nat) else 1) != 0)
        = false
      rw [hnps]
      rfl
    · intro hs hr
      have hrtp : respTotalPartnum false unitSize sendBegin
          (sendBegin.length - 1) = 0 := by
        apply respTotalPartnum_known_zero
        intro i hi
        by_cases hm : i = myRank
        · exact hm ▸ hs
        · exact hsend i hi hm
      refine ⟨?_, ?_, ?_⟩
      · show (if (!false && decide (numPsRequests false myRank unitSize recvBegin
            (sendBegin.length - 1) = 0) : Bool) = true then (0 : Nat) else 1) +
            respTotalPartnum false unitSize sendBegin (sendBegin.length - 1) = 0
        rw [hnps, hrtp]
        rfl
      · show (if ((if (!false && decide (numPsRequests false myRank unitSize recvBegin
            (sendBegin.length - 1) = 0) : Bool) = true then (0 : Nat) else 1) +
            respTotalPartnum false unitSize sendBegin (sendBegin.length - 1) = 0)
            then (0 : Nat)
            else if respTotalPartnum false unitSize sendBegin (sendBegin.length - 1) ≠ 0
            then (if (false : Bool) = true then 1
              else ((List.range (sendBegin.length - 1)).filter (fun i =>
                unitSize * (sendBegin.getD (i + 1) 0 - sendBegin.getD i 0) ≠ 0)).length)
            else 0) = 0
        rw [hnps, hrtp]
        rfl
      · show (if ((if (!false && decide (numPsRequests false myRank unitSize recvBegin
            (sendBegin.length - 1) = 0) : Bool) = true then (0 : Nat) else 1) +
            respTotalPartnum false unitSize sendBegin (sendBegin.length - 1) = 0)
            then (1 : Nat) else 0) = 1
        rw [hnps, hrtp]
        rfl
  | false =>
    have hnps : numPsRequests false myRank unitSize sendBegin
        (sendBegin.length - 1) = 0 :=
      numPsRequests_known_zero myRank unitSize sendBegin _ hsend
    refine ⟨hnps, ?_, rfl, ?_⟩
    · show ((if (!false && decide (numPsRequests false myRank unitSize sendBegin
          (sendBegin.length - 1) = 0) : Bool) = true then (0 : Nat) else 1) != 0)
        = false
      rw [hnps]
      rfl
    · intro hs hr
      have hrtp : respTotalPartnum false unitSize recvBegin
          (sendBegin.length - 1) = 0 := by
        apply respTotalPartnum_known_zero
        intro i hi
        by_cases hm : i = myRank
        · exact hm ▸ hr
        · exact hrecv i hi hm
      refine ⟨?_, ?_, ?_⟩
      · show (if (!false && decide (numPsRequests false myRank unitSize sendBegin
            (sendBegin.length - 1) = 0) : Bool) = true then (0 : Nat) else 1) +
            respTotalPartnum false unitSize recvBegin (sendBegin.length - 1) = 0
        rw [hnps, hrtp]
        rfl
      · show (if ((if (!false && decide (numPsRequests false myRank unitSize sendBegin
            (sendBegin.length - 1) = 0) : Bool) = true then (0 : Nat) else 1) +
            respTotalPartnum false unitSize recvBegin (sendBegin.length - 1) = 0)
            then (0 : Nat)
            else if respTotalPartnum false unitSize recvBegin (sendBegin.length - 1) ≠ 0
            then (if (false : Bool) = true then 1
              else ((List.range (sendBegin.length - 1)).filter (fun i =>
                unitSize * (recvBegin.getD (i + 1) 0 - recvBegin.getD i 0) ≠ 0)).length)
            else 0) = 0
        rw [hnps, hrtp]
        rfl
      · show (if ((if (!false && decide (numPsRequests false myRank unitSize sendBegin
            (sendBegin.length - 1) = 0) : Bool) = true then (0 : Nat) else 1) +
            respTotalPartnum false unitSize recvBegin (sendBegin.length - 1) = 0)
            then (1 : Nat) else 0) = 1
        rw [hnps, hrtp]
        rfl

/-- Witness for `alltoall_empty_slots_amended`: 3 ranks, all slots zero. -/
theorem alltoall_empty_slots_amended_witness :
    (enqueueAlltoAllTensor false false false 0 4 [0, 0, 0, 0]
        [0, 0, 0, 0]).numPsRequests = 0 ∧
    (enqueueAlltoAllTensor false false false 0 4 [0, 0, 0, 0]
        [0, 0, 0, 0]).requestEnqueued = false ∧
    (enqueueAlltoAllTensor false false false 0 4 [0, 0, 0, 0]
        [0, 0, 0, 0]).status = .OK ∧
    (([0, 0, 0, 0] : List Int).getD (0 + 1) 0 - ([0, 0, 0, 0] : List Int).getD 0 0 = 0 →
     ([0, 0, 0, 0] : List Int).getD (0 + 1) 0 - ([0, 0, 0, 0] : List Int).getD 0 0 = 0 →
      (enqueueAlltoAllTensor false false false 0 4 [0, 0, 0, 0]
          [0, 0, 0, 0]).totalPartnum = 0 ∧
      (enqueueAlltoAllTensor false false false 0 4 [0, 0, 0, 0]
          [0, 0, 0, 0]).respTasksEnqueued = 0 ∧
      (enqueueAlltoAllTensor false false false 0 4 [0, 0, 0, 0]
          [0, 0, 0, 0]).immediateCallbacks = 1) :=
  alltoall_empty_slots_amended false 0 4 [0, 0, 0, 0] [0, 0, 0, 0]
    (by decide) (by decide)

/-! ## `PrepareAlltoallTensor` (`operations.cc`)

The function computes `stride = prod(shape[1:])`, scans `split_list`
(accumulating `dim0_in` and pushing `split_i * stride`, returning
`InvalidArgument` at the first negative entry), checks
`sum(split) == shape[0]`, scans `recv_split_list` (returning
`InvalidArgument` at the first negative entry), and only then performs the
session naming and the `DeclareAlltoallTensor` calls.  The `int32_t`
counters are modelled as unbounded `Int` (overflow is UB in the source).
The callers initialise `*dim0_in`/`*dim0_out` to 0.
-/

/-- The `split_list` scan: accumulate `dim0_in`, push the scaled index,
stop at the first negative entry (`false` = early `InvalidArgument`). -/
def prepSplitScan (stride : Int) : List Int → Int → List Int →
    Int × List Int × Bool
  | [], dim0, acc => (dim0, acc, true)
  | x :: xs, dim0, acc =>
    if x < 0 then (dim0 + x, acc ++ [x * stride], false)
    else prepSplitScan stride xs (dim0 + x) (acc ++ [x * stride])

/-- The `recv_split_list` scan: the negativity check precedes the
accumulation. -/
def prepRecvScan (stride : Int) : List Int → Int → List Int →
    Int × List Int × Bool
  | [], dim0, acc => (dim0, acc, true)
  | x :: xs, dim0, acc =>
    if x < 0 then (dim0, acc, false)
    else prepRecvScan stride xs (dim0 + x) (acc ++ [x * stride])

/-- The observable outcome of `PrepareAlltoallTensor`: final status and
whether the session naming / `DeclareAlltoallTensor` calls were reached. -/
structure PrepOutcome where
  status : StatusType
  declarationsPerformed : Bool
  dim0In : Int
  dim0Out : Int
deriving DecidableEq, Repr

/-- The `stride` value: the product of `shape[1:]`. -/
def alltoallStride (shapeDims : List Int) : Int :=
  (shapeDims.drop 1).foldl (· * ·) 1

/-- Model of `PrepareAlltoallTensor(shape, tensor_key, split_list, recv_split_list,
...)` (the outcome-relevant part; `shapeDims` is the dimension list of the
input tensor).  The nested ifs mirror the early returns of the source. -/
def prepareAlltoallTensor (shapeDims : List Int)
    (splitList recvSplitList : List Int) : PrepOutcome :=
  if !(prepSplitScan (alltoallStride shapeDims) splitList 0 []).2.2 then
    { status := .INVALID_ARGUMENT, declarationsPerformed := false,
      dim0In := (prepSplitScan (alltoallStride shapeDims) splitList 0 []).1,
      dim0Out := 0 }
  else if (prepSplitScan (alltoallStride shapeDims) splitList 0 []).1 ≠
      shapeDims.getD 0 0 then
    { status := .INVALID_ARGUMENT, declarationsPerformed := false,
      dim0In := (prepSplitScan (alltoallStride shapeDims) splitList 0 []).1,
      dim0Out := 0 }
  else if !(prepRecvScan (alltoallStride shapeDims) recvSplitList 0 []).2.2 then
    { status := .INVALID_ARGUMENT, declarationsPerformed := false,
      dim0In := (prepSplitScan (alltoallStride shapeDims) splitList 0 []).1,
      dim0Out := (prepRecvScan (alltoallStride shapeDims) recvSplitList 0 []).1 }
  else
    { status := .OK, declarationsPerformed := true,
      dim0In := (prepSplitScan (alltoallStride shapeDims) splitList 0 []).1,
      dim0Out := (prepRecvScan (alltoallStride shapeDims) recvSplitList 0 []).1 }

lemma prepSplitScan_cons_neg (stride x : Int) (xs : List Int) (d : Int)
    (a : List Int) (hx : x < 0) :
    prepSplitScan stride (x :: xs) d a = (d + x, a ++ [x * stride], false) := by
  simp [prepSplitScan, hx]

lemma prepSplitScan_cons_nonneg (stride x : Int) (xs : List Int) (d : Int)
    (a : List Int) (hx : ¬x < 0) :
    prepSplitScan stride (x :: xs) d a =
      prepSplitScan stride xs (d + x) (a ++ [x * stride]) := by
  simp [prepSplitScan, hx]

lemma prepRecvScan_cons_neg (stride x : Int) (xs : List Int) (d : Int)
    (a : List Int) (hx : x < 0) :
    prepRecvScan stride (x :: xs) d a = (d, a, false) := by
  simp [prepRecvScan, hx]

lemma prepRecvScan_cons_nonneg (stride x : Int) (xs : List Int) (d : Int)
    (a : List Int) (hx : ¬x < 0) :
    prepRecvScan stride (x :: xs) d a =
      prepRecvScan stride xs (d + x) (a ++ [x * stride]) := by
  simp [prepRecvScan, hx]

lemma prepSplitScan_ok (stride : Int) :
    ∀ (l : List Int) (d : Int) (a : List Int),
      ((prepSplitScan stride l d a).2.2 = true ↔ ∀ x ∈ l, ¬x < 0) ∧
      ((prepSplitScan stride l d a).2.2 = true →
        (prepSplitScan stride l d a).1 = d + l.sum) := by
  intro l
  induction l with
  | nil => intro d a; simp [prepSplitScan]
  | cons x xs ih =>
    intro d a
    by_cases hx : x < 0
    · rw [prepSplitScan_cons_neg stride x xs d a hx]
      constructor
      · show false = true ↔ ∀ y ∈ x :: xs, ¬y < 0
        constructor
        · exact fun h => absurd h Bool.false_ne_true
        · exact fun hall => absurd hx (hall x (List.mem_cons_self x xs))
      · show false = true → (d + x : Int) = d + (x :: xs).sum
        exact fun h => absurd h Bool.false_ne_true
    · rw [prepSplitScan_cons_nonneg stride x xs d a hx]
      refine ⟨?_, ?_⟩
      · rw [(ih (d + x) (a ++ [x * stride])).1]
        constructor
        · intro hall y hy
          rcases List.mem_cons.mp hy with hy | hy
          · subst hy; exact hx
          · exact hall y hy
        · exact fun hall y hy => hall y (List.mem_cons_of_mem x hy)
      · intro hok
        rw [(ih (d + x) (a ++ [x * stride])).2 hok, List.sum_cons]
        ring

lemma prepRecvScan_ok (stride : Int) :
    ∀ (l : List Int) (d : Int) (a : List Int),
      (prepRecvScan stride l d a).2.2 = true ↔ ∀ x ∈ l, ¬x < 0 := by
  intro l
  induction l with
  | nil => intro d a; simp [prepRecvScan]
  | cons x xs ih =>
    intro d a
    by_cases hx : x < 0
    · rw [prepRecvScan_cons_neg stride x xs d a hx]
      show false = true ↔ ∀ y ∈ x :: xs, ¬y < 0
      constructor
      · exact fun h => absurd h Bool.false_ne_true
      · exact fun hall => absurd hx (hall x (List.mem_cons_self x xs))
    · rw [prepRecvScan_cons_nonneg stride x xs d a hx]
      rw [ih (d + x) (a ++ [x * stride])]
      constructor
      · intro hall y hy
        rcases List.mem_cons.mp hy with hy | hy
        · subst hy; exact hx
        · exact hall y hy
      · exact fun hall y hy => hall y (List.mem_cons_of_mem x hy)

/-- C9. `PrepareAlltoallTensor` returns `InvalidArgument` iff some
`split` entry is negative, some `recv_split` entry is negative, or the sum
of the `split` entries differs from the tensor's dimension-0 size; its only
other status is OK; and on any such error it returns before performing the
session naming and declarations (`declarationsPerformed = false`). -/
theorem prepare_alltoall_invalid_iff (shapeDims splitList recvSplitList : List Int) :
    ((prepareAlltoallTensor shapeDims splitList recvSplitList).status =
        .INVALID_ARGUMENT ↔
      ((∃ x ∈ splitList, x < 0) ∨ splitList.sum ≠ shapeDims.getD 0 0 ∨
        (∃ x ∈ recvSplitList, x < 0))) ∧
    ((prepareAlltoallTensor shapeDims splitList recvSplitList).status ≠ .OK ↔
      (prepareAlltoallTensor shapeDims splitList recvSplitList).status =
        .INVALID_ARGUMENT) ∧
    ((prepareAlltoallTensor shapeDims splitList recvSplitList).status ≠ .OK →
      (prepareAlltoallTensor shapeDims splitList recvSplitList).declarationsPerformed
        = false) := by
  unfold prepareAlltoallTensor
  cases h1 : (prepSplitScan (alltoallStride shapeDims) splitList 0 []).2.2 with
  | false =>
    have hneg : ∃ x ∈ splitList, x < 0 := by
      by_contra hall
      push_neg at hall
      have htrue := (prepSplitScan_ok (alltoallStride shapeDims) splitList 0 []).1.mpr
        (fun x hx => not_lt.mpr (hall x hx))
      rw [h1] at htrue
      exact Bool.noConfusion htrue
    exact ⟨by simp [hneg], by simp, fun _ => rfl⟩
  | true =>
    have hnoneg : ∀ x ∈ splitList, ¬x < 0 :=
      (prepSplitScan_ok (alltoallStride shapeDims) splitList 0 []).1.mp h1
    have hsum : (prepSplitScan (alltoallStride shapeDims) splitList 0 []).1 =
        splitList.sum := by
      have := (prepSplitScan_ok (alltoallStride shapeDims) splitList 0 []).2 h1
      omega
    by_cases hdim : (prepSplitScan (alltoallStride shapeDims) splitList 0 []).1 =
        shapeDims.getD 0 0
    · rw [if_neg (show ¬((prepSplitScan (alltoallStride shapeDims) splitList
          0 []).1 ≠ shapeDims.getD 0 0) from fun hne => hne hdim)]
      have hds : splitList.sum = shapeDims.getD 0 0 := hsum ▸ hdim
      cases h2 : (prepRecvScan (alltoallStride shapeDims) recvSplitList 0 []).2.2 with
      | false =>
        have hneg₂ : ∃ x ∈ recvSplitList, x < 0 := by
          by_contra hall
          push_neg at hall
          have htrue := (prepRecvScan_ok (alltoallStride shapeDims)
            recvSplitList 0 []).mpr (fun x hx => not_lt.mpr (hall x hx))
          rw [h2] at htrue
          exact Bool.noConfusion htrue
        exact ⟨by simp [hneg₂], by simp, fun _ => rfl⟩
      | true =>
        have hnoneg₂ : ∀ x ∈ recvSplitList, ¬x < 0 :=
          (prepRecvScan_ok (alltoallStride shapeDims) recvSplitList 0 []).mp h2
        refine ⟨?_, by simp, by simp⟩
        constructor
        · intro h
          exact StatusType.noConfusion h
        · intro hdisj
          rcases hdisj with h | h | h
          · obtain ⟨x, hx, hxlt⟩ := h
            exact absurd hxlt (hnoneg x hx)
          · exact absurd hds h
          · obtain ⟨x, hx, hxlt⟩ := h
            exact absurd hxlt (hnoneg₂ x hx)
    · rw [if_pos hdim]
      have hds : splitList.sum ≠ shapeDims.getD 0 0 := fun he => hdim (hsum ▸ he)
      exact ⟨iff_of_true rfl (Or.inr (Or.inl hds)), by simp, fun _ => rfl⟩

/-! ## `EnqueueTensor` and `EnqueueAllgatherTensor` (`operations.cc`)

Both functions begin with

```
if (BytePSGlobal::ShouldShutdown()) { return Status::OK(); }
```

The outcome model records the enqueued first-stage tasks (stage, key,
length per partition), the number of immediate callback invocations, and
the returned status.
-/

/-- The observable outcome of an enqueue call. -/
structure EnqueueOutcome where
  status : StatusType
  enqueued : List (QueueType × Nat × Nat)
  immediateCallbacks : Nat
deriving DecidableEq, Repr

/-- Model of `EnqueueTensor`: early-return on shutdown; rewrite the stage list for
compression; partition; when the stage list is empty invoke the callback
immediately; otherwise enqueue each partition on its first stage,
rewriting small GDR-eligible partitions to the `GDR_V2_PUSH_PULL` fast
path (`gdrEligible` bundles `device != CPU && phy_node_num > 1 && IsGDR()
&& IsGDRGpu2Gpu() && !IsUsingReduce()`). -/
def enqueueTensor (shouldShutdown isRootDevice compressorNonempty
    gdrEligible : Bool) (gdrPhase1Thresh : Nat) (keyList : List Nat)
    (size bound : Nat) (queueList : List QueueType) : EnqueueOutcome :=
  if shouldShutdown then
    { status := .OK, enqueued := [], immediateCallbacks := 0 }
  else
    let ql := enqueueCompressRewrite isRootDevice compressorNonempty queueList
    if ql = [] then
      { status := .OK, enqueued := [], immediateCallbacks := 1 }
    else
      let lens := partitionLens size bound
      { status := .OK,
        enqueued := (List.range lens.length).map (fun i =>
          let len := lens.getD i 0
          if gdrEligible && len ≤ gdrPhase1Thresh then
            (QueueType.GDR_V2_PUSH_PULL, keyList.getD i 0, len)
          else
            (ql.headD .COORDINATE_REDUCE, keyList.getD i 0, len)),
        immediateCallbacks := 0 }

/-- Model of `EnqueueAllgatherTensor`: early-return on shutdown; `total_partnum` is
`num_phy_node` on a distributed root (or local rank 0) and 1 otherwise;
when it is 0 the callback fires immediately; otherwise the request task
goes to the request queue (if non-empty) and one response task per other
physical node goes to the response queue (if non-empty). -/
def enqueueAllgatherTensor (shouldShutdown isDistributed isRootDevice : Bool)
    (localRank numPhyNode phyId : Nat) (keyList : List Nat) (tensorSize : Nat)
    (reqQ respQ : List QueueType) : EnqueueOutcome :=
  if shouldShutdown then
    { status := .OK, enqueued := [], immediateCallbacks := 0 }
  else
    let totalPartnum :=
      if isDistributed && (localRank = 0 || isRootDevice) then numPhyNode else 1
    if totalPartnum = 0 then
      { status := .OK, enqueued := [], immediateCallbacks := 1 }
    else
      let reqTasks : List (QueueType × Nat × Nat) :=
        if reqQ ≠ [] then
          [(reqQ.headD .ALLGATHER, keyList.getD phyId 0, tensorSize)]
        else []
      let respTasks : List (QueueType × Nat × Nat) :=
        if respQ ≠ [] then
          ((List.range numPhyNode).filter (fun i => i ≠ phyId)).map (fun i =>
            (respQ.headD .ALLGATHER, keyList.getD i 0, tensorSize))
        else []
      { status := .OK, enqueued := reqTasks ++ respTasks,
        immediateCallbacks := 0 }

/-- C10. When the process-wide shutdown flag is set, `EnqueueTensor`,
`EnqueueAlltoAllTensor` and `EnqueueAllgatherTensor` each return
`Status::OK` immediately, enqueue no task on any queue, and never invoke
the submission's callback. -/
theorem enqueue_shutdown_early_return
    (isRootDevice compressorNonempty gdrEligible : Bool)
    (gdrPhase1Thresh : Nat) (keyList : List Nat) (size bound : Nat)
    (queueList : List QueueType)
    (usePullEnv outputSizeUnknown : Bool) (myRank : Nat) (unitSize : Int)
    (sendBegin recvBegin : List Int)
    (isDistributed isRootDevice' : Bool) (localRank numPhyNode phyId : Nat)
    (keyList' : List Nat) (tensorSize : Nat) (reqQ respQ : List QueueType) :
    (enqueueTensor true isRootDevice compressorNonempty gdrEligible
        gdrPhase1Thresh keyList size bound queueList =
      { status := .OK, enqueued := [], immediateCallbacks := 0 }) ∧
    ((enqueueAlltoAllTensor true usePullEnv outputSizeUnknown myRank unitSize
        sendBegin recvBegin).status = .OK ∧
     (enqueueAlltoAllTensor true usePullEnv outputSizeUnknown myRank unitSize
        sendBegin recvBegin).requestEnqueued = false ∧
     (enqueueAlltoAllTensor true usePullEnv outputSizeUnknown myRank unitSize
        sendBegin recvBegin).respTasksEnqueued = 0 ∧
     (enqueueAlltoAllTensor true usePullEnv outputSizeUnknown myRank unitSize
        sendBegin recvBegin).immediateCallbacks = 0) ∧
    (enqueueAllgatherTensor true isDistributed isRootDevice' localRank
        numPhyNode phyId keyList' tensorSize reqQ respQ =
      { status := .OK, enqueued := [], immediateCallbacks := 0 }) :=
  ⟨rfl, ⟨rfl, rfl, rfl, rfl⟩, rfl⟩

end BytePS
